import Mathlib

/-!
# collabREate connection manager (`server/c++/cli_mgr.cpp`)

A shallow embedding of the connection manager: the user registry, the packet
constructor, the directory visitors (`termClients`, `clientStats`, `dispatch`,
`clientList`), the dispatch loop `run`, `terminate`, `remove`, `dumpStats` and
`listConnections`.

Calls into collaborators that live outside `cli_mgr.cpp` (json-c reference
counting, `Client::post`, `Client::send_data`, `Client::terminate`) are recorded,
in program order, in a trace of `Event`s.  Text is a list of characters.
-/

namespace CollabREate

/-! ## Data model -/

/-- Text: `std::string` and C strings are sequences of characters. -/
abbrev Str := List Char

/-- Record `UserInfo`: the username, the 32-bit uid, the 64-bit publish and subscribe masks. -/
structure UserInfo where
  username : Str
  uid : Nat
  pub : Nat
  sub : Nat
deriving DecidableEq

/-- Constructor `UserInfo::UserInfo(uname, _uid, _pub, _sub)`. -/
def UserInfo.new (uname : Str) (_uid _pub _sub : Nat) : UserInfo :=
  { username := uname, uid := _uid, pub := _pub, sub := _sub }

/-- Default constructor `UserInfo::UserInfo()`; the constant `INVALID_UID` is declared
outside `cli_mgr.cpp` and is a parameter here. -/
def UserInfo.invalid (INVALID_UID : Nat) : UserInfo :=
  { username := "invalid".toList, uid := INVALID_UID, pub := 0, sub := 0 }

/-- The fields of a json object: named unsigned integer values, in insertion order. -/
abbrev JsonFields := List (Str × Nat)

/-- A heap json object as seen through a `json_object *`: its address and its fields. -/
structure JsonObj where
  addr : Nat
  fields : JsonFields
deriving DecidableEq

/-- Modelled from the spec: `append_json_uint64_val` (declared in `utils.h`, absent here)
sets a named integer field of a structured payload; a field of that name already
present is replaced. -/
def append_json_uint64_val (fs : JsonFields) (key : Str) (val : Nat) : JsonFields :=
  fs.filter (fun kv => kv.1 ≠ key) ++ [(key, val)]

/-- Library call `json_object_new_object()`: a fresh object without fields. -/
def json_object_new_object : JsonFields := []

/-- A connection handle `Client *`: `ptr` is the pointer value (the identity of the
connection), the other fields are what the read-only accessors of `Client` return
(`getUid`, `getPid`, `getUser`, `getPub`, `getSub`, `getPeerAddr`, `getPeerPort`,
`dumpStats`). -/
structure Client where
  ptr : Nat
  uid : Nat
  pid : Int
  user : Str
  pub : Nat
  sub : Nat
  peerAddr : Str
  peerPort : Int
  stats : Str
deriving DecidableEq

/-- Record `Packet`: originating client `c`, command tag, payload and update identifier. -/
structure Packet where
  c : Client
  cmd : Str
  obj : JsonObj
  uid : Nat
deriving DecidableEq

/-- Constructor `Packet::Packet(src, cmd, obj, updateid)`: stores its arguments and
embeds the update identifier in the payload. -/
def Packet.new (src : Client) (cmd : Str) (obj : JsonObj) (updateid : Nat) : Packet :=
  { c := src, cmd := cmd,
    obj := { obj with fields := append_json_uint64_val obj.fields "updateid".toList updateid },
    uid := updateid }

/-- The calls that leave `cli_mgr.cpp`, as they appear in the trace. -/
inductive Event where
  -- `json_object_get(obj)`: one more reference on the object at `addr`
  | jsonGet (addr : Nat)
  -- `json_object_put(obj)`: one reference less on the object at `addr`
  | jsonPut (addr : Nat)
  -- `c->post(cmd, obj)`; `delivered` is what became of the hand-off, which the
  -- caller never sees
  | post (client : Nat) (cmd : Str) (obj : JsonObj) (delivered : Bool)
  -- `c->send_data(msgType, obj)`, with the fields of the object sent
  | sendData (client : Nat) (msgType : Nat) (fields : JsonFields)
  -- `c->terminate()`
  | clientTerminate (client : Nat)
deriving DecidableEq

/-- The std::map `user_map`, as an association list searched from the front. -/
abbrev UserMap := List (Nat × UserInfo)

/-- Member `std::map::find(uid)`: the record stored under `uid`, when there is one. -/
def UserMap.find (um : UserMap) (uid : Nat) : Option UserInfo :=
  match um with
  | [] => none
  | (k, v) :: rest => if k = uid then some v else UserMap.find rest uid

/-- Member `std::map::operator[]`: the record stored under `uid`; a missing key is
first inserted with a default-constructed record. -/
def UserMap.index (INVALID_UID : Nat) (um : UserMap) (uid : Nat) : UserInfo × UserMap :=
  match UserMap.find um uid with
  | some v => (v, um)
  | none => (UserInfo.invalid INVALID_UID, um ++ [(uid, UserInfo.invalid INVALID_UID)])

/-- Method `ConnectionManager::getUserInfo(uid)`: the record returned and the registry
afterwards. -/
def getUserInfo (INVALID_UID : Nat) (user_map : UserMap) (uid : Nat) : UserInfo × UserMap :=
  if UserMap.find user_map uid = none then
    (UserInfo.invalid INVALID_UID, user_map)
  else
    UserMap.index INVALID_UID user_map uid

/-! ## The directory -/

/-- Modelled from the spec: the project/client directory (`projectmap.h`, absent here)
tracks which clients belong to which project: each project id with its members. -/
abbrev ProjectMap := List (Int × List Client)

/-- Modelled from the spec: a directory visit invokes `visit(client, context)` for each
client in turn and stops early as soon as `visit` returns false. -/
def loopList {σ : Type} (visit : Client → σ → σ × Bool) : List Client → σ → σ
  | [], s => s
  | c :: cs, s =>
    match visit c s with
    | (s', true) => loopList visit cs s'
    | (s', false) => s'

/-- All clients currently connected, across all projects, in visitation order. -/
def ProjectMap.allClients (projects : ProjectMap) : List Client :=
  projects.flatMap (fun e => e.2)

/-- The clients that are currently members of project `pid`, in visitation order. -/
def ProjectMap.members (projects : ProjectMap) (pid : Int) : List Client :=
  (projects.filter (fun e => e.1 = pid)).flatMap (fun e => e.2)

/-- Modelled from the spec: `loopClients(visit, context)` (`projectmap.h`, absent here)
visits every currently connected client, across all projects. -/
def loopClients {σ : Type} (projects : ProjectMap) (visit : Client → σ → σ × Bool)
    (s : σ) : σ :=
  loopList visit projects.allClients s

/-- Modelled from the spec: `loopProject(projectId, visit, context)` (`projectmap.h`,
absent here) visits every client currently a member of `projectId`. -/
def loopProject {σ : Type} (projects : ProjectMap) (pid : Int)
    (visit : Client → σ → σ × Bool) (s : σ) : σ :=
  loopList visit (projects.members pid) s

/-- Modelled from the spec: `removeClient(client)` (`projectmap.h`, absent here)
detaches a client from its project membership. -/
def removeClient (projects : ProjectMap) (c : Client) : ProjectMap :=
  projects.map (fun e => (e.1, e.2.filter (fun d => d.ptr ≠ c.ptr)))

/-! ## The visitors -/

/-- Visitor `termClients(c, user)`. -/
def termClients (c : Client) (tr : List Event) : List Event × Bool :=
  (tr ++ [Event.clientTerminate c.ptr], true)

/-- Visitor `clientStats(c, user)`; the context is the string being built. -/
def clientStats (c : Client) (s : Str) : Str × Bool :=
  (s ++ c.stats, true)

/-- Visitor `dispatch(c, user)`; the context is the packet, here with the trace and
with `deliver`, which says for each connection whether a hand-off by `post` gets
through.  `MSG_ACK_UPDATEID` is declared outside `cli_mgr.cpp` and is a parameter. -/
def dispatch (MSG_ACK_UPDATEID : Nat) (deliver : Nat → Bool) (p : Packet)
    (c : Client) (tr : List Event) : List Event × Bool :=
  if c.ptr ≠ p.c.ptr then
    (tr ++ [Event.jsonGet p.obj.addr, Event.post c.ptr p.cmd p.obj (deliver c.ptr)], true)
  else
    (tr ++ [Event.sendData c.ptr MSG_ACK_UPDATEID
              (append_json_uint64_val json_object_new_object "updateid".toList p.uid)], true)

/-! ## Formatted output (`snprintf`) -/

/-- The sixteen hexadecimal digit characters. -/
def hexDigits : Str := "0123456789abcdef".toList

/-- The digit character of `printf` for the digit value `d`, for the bases 10 and 16
(lower case). -/
def digitChar (d : Nat) : Char := hexDigits.getD d 'f'

/-- The digits of `n` in base `base`, most significant first, pushed in front of `acc`. -/
def digitsAux (base : Nat) : Nat → Nat → Str → Str
  | 0, _, acc => acc
  | fuel + 1, n, acc =>
    if n / base = 0 then digitChar (n % base) :: acc
    else digitsAux base fuel (n / base) (digitChar (n % base) :: acc)

/-- The digits of `n` in base `base`; zero is the single digit `0`. -/
def natDigits (base n : Nat) : Str := digitsAux base (n + 1) n []

/-- Conversion `%d` of an `int`. -/
def fmtInt (v : Int) : Str :=
  if v < 0 then '-' :: natDigits 10 v.natAbs else natDigits 10 v.natAbs

/-- Flag `-` with a minimum field width: blanks are added on the right. -/
def padRight (w : Nat) (s : Str) : Str := s ++ List.replicate (w - s.length) ' '

/-- A minimum field width without the `-` flag: `fill` is added on the left. -/
def padLeft (fill : Char) (w : Nat) (s : Str) : Str := List.replicate (w - s.length) fill ++ s

/-- A `uint32_t` read by `%d`: the same 32 bits as a signed `int`. -/
def toInt32 (u : Nat) : Int :=
  if u % 2 ^ 32 < 2 ^ 31 then ((u % 2 ^ 32 : Nat) : Int) else ((u % 2 ^ 32 : Nat) : Int) - 2 ^ 32

/-- Member `std::string::c_str()` as `%s` reads it: the characters before the first NUL. -/
def c_str (s : Str) : Str := s.takeWhile (fun ch => ch ≠ Char.ofNat 0)

/-- Call `snprintf(buf, size, ...)` on the fully formatted text `out`: the buffer keeps
at most `size - 1` characters; the value returned is the length of the full text. -/
def snprintf (size : Nat) (out : Str) : Str × Int := (out.take (size - 1), (out.length : Int))

/-- The buffer after `snprintf(buf, sizeof(buf), "%-9d", c->getUid())`. -/
def idField (c : Client) : Str := (snprintf 64 (padRight 9 (fmtInt (toInt32 c.uid)))).1

/-- The buffer and the value `len` of `snprintf(buf, sizeof(buf), "%s:", addr)`. -/
def addrField (c : Client) : Str × Int := snprintf 64 (c_str c.peerAddr ++ ":".toList)

/-- The buffer after `snprintf(buf, sizeof(buf), "%-*d", 30 - len, c->getPeerPort())`;
a negative width argument is taken as the `-` flag and a positive width. -/
def portField (c : Client) : Str :=
  (snprintf 64 (padRight (30 - (addrField c).2).natAbs (fmtInt c.peerPort))).1

/-- The buffer after `snprintf(buf, sizeof(buf), "0x%08x     ", (uint32_t)mask)`. -/
def maskField (mask : Nat) : Str :=
  (snprintf 64 ("0x".toList ++ padLeft '0' 8 (natDigits 16 (mask % 2 ^ 32)) ++ "     ".toList)).1

/-- The buffer after `snprintf(buf, sizeof(buf), "%-5d ", c->getPid())`. -/
def pidField (c : Client) : Str := (snprintf 64 (padRight 5 (fmtInt c.pid) ++ " ".toList)).1

/-- The buffer after `snprintf(buf, sizeof(buf), "%3d: %s \n", c->getUid(), user)`. -/
def userField (c : Client) : Str :=
  (snprintf 64 (padLeft ' ' 3 (fmtInt (toInt32 c.uid)) ++ ": ".toList ++ c_str c.user
      ++ " \n".toList)).1

/-- Visitor `clientList(c, user)`; the context is the string being built. -/
def clientList (c : Client) (s : Str) : Str × Bool :=
  (s ++ idField c ++ (addrField c).1 ++ portField c ++ maskField c.pub ++ maskField c.sub
     ++ pidField c ++ userField c, true)

/-! ## The connection manager -/

/-- The state of a `ConnectionManager`; the semaphores are their counters. -/
structure ConnectionManager where
  conf : Option JsonObj
  done : Bool
  pidLock : Nat
  queueSem : Nat
  queueMutex : Nat
  queue : List Packet
  user_map : UserMap
  projects : ProjectMap

/-- Constructor `ConnectionManager::ConnectionManager(conf)`. -/
def ConnectionManager.new (conf : Option JsonObj) : ConnectionManager :=
  { conf := conf, done := false, pidLock := 1, queueSem := 0, queueMutex := 1,
    queue := [], user_map := [], projects := [] }

/-- Method `ConnectionManager::terminate()`; the call of `log` leaves no mark on the
manager or on the trace. -/
def terminate (m : ConnectionManager) (tr : List Event) : ConnectionManager × List Event :=
  let m1 := { m with done := true }
  let tr1 := loopClients m1.projects termClients tr
  match m1.conf with
  | some conf => ({ m1 with conf := none }, tr1 ++ [Event.jsonPut conf.addr])
  | none => (m1, tr1)

/-- Method `ConnectionManager::remove(c)`. -/
def remove (m : ConnectionManager) (c : Client) : ConnectionManager :=
  { m with projects := removeClient m.projects c }

/-- Method `ConnectionManager::dumpStats()`. -/
def dumpStats (m : ConnectionManager) : Str :=
  let sb := loopClients m.projects clientStats []
  if sb.length = 0 then "Stats:\n - none - \n".toList
  else "Stats:\n".toList ++ sb

/-- The header line of `listConnections`. -/
def listHeader : Str :=
  "Client   Address:Port                  Pub(Effective) Sub(Effective) PID     User\n".toList

/-- Method `ConnectionManager::listConnections()`. -/
def listConnections (m : ConnectionManager) : Str :=
  let sb := loopClients m.projects clientList []
  if sb.length = 0 then listHeader ++ " - none - \n".toList
  else listHeader ++ sb

/-- Modelled from the spec: `enqueue(packet)` (not in `cli_mgr.cpp`) appends to the tail
of the queue under the queue lock and signals that a packet is available. -/
def enqueue (m : ConnectionManager) (p : Packet) : ConnectionManager :=
  { m with queue := m.queue ++ [p], queueSem := m.queueSem + 1 }

/-- What became of the dispatch thread. -/
inductive Status where
  -- the loop condition saw `done` and `run` returned
  | exited
  -- parked in `sem_wait(&mgr->queueSem)` with the counter at zero
  | blocked
  -- `mgr->queue[0]` was read from an empty vector
  | fault
  -- the loop is back at its condition
  | more
deriving DecidableEq

/-- One pass through the body of the loop of `run`, from `sem_wait(&mgr->queueSem)` on.
The critical section under `queueMutex` is one step: the lock is taken and given back. -/
def runBody (MSG_ACK_UPDATEID : Nat) (deliver : Nat → Bool)
    (m : ConnectionManager) (tr : List Event) : Status × ConnectionManager × List Event :=
  if m.queueSem = 0 then (Status.blocked, m, tr)
  else
    match m.queue with
    | [] => (Status.fault, { m with queueSem := m.queueSem - 1 }, tr)
    | p :: rest =>
      let m1 := { m with queueSem := m.queueSem - 1, queue := rest }
      let tr1 := loopProject m1.projects p.c.pid (dispatch MSG_ACK_UPDATEID deliver p) tr
      (Status.more, m1, tr1 ++ [Event.jsonPut p.obj.addr])

/-- Method `ConnectionManager::run`, entered at the loop condition, for at most `fuel`
passes. -/
def run (MSG_ACK_UPDATEID : Nat) (deliver : Nat → Bool) :
    Nat → ConnectionManager → List Event → Status × ConnectionManager × List Event
  | 0, m, tr => (Status.more, m, tr)
  | fuel + 1, m, tr =>
    if m.done then (Status.exited, m, tr)
    else
      match runBody MSG_ACK_UPDATEID deliver m tr with
      | (Status.more, m1, tr1) => run MSG_ACK_UPDATEID deliver fuel m1 tr1
      | r => r

/-- Method `ConnectionManager::run`, resumed by a thread parked in
`sem_wait(&mgr->queueSem)`: the rest of the pass, then the loop. -/
def runResume (MSG_ACK_UPDATEID : Nat) (deliver : Nat → Bool) (fuel : Nat)
    (m : ConnectionManager) (tr : List Event) : Status × ConnectionManager × List Event :=
  match runBody MSG_ACK_UPDATEID deliver m tr with
  | (Status.more, m1, tr1) => run MSG_ACK_UPDATEID deliver fuel m1 tr1
  | r => r

/-! ## Reading a trace -/

/-- The hand-offs by `post` that `client` receives in a trace. -/
def postsTo (client : Nat) (tr : List Event) : List Event :=
  tr.filter (fun e => match e with
    | Event.post cl _ _ _ => decide (cl = client)
    | _ => false)

/-- The `send_data` messages that `client` receives in a trace. -/
def sendsTo (client : Nat) (tr : List Event) : List Event :=
  tr.filter (fun e => match e with
    | Event.sendData cl _ _ => decide (cl = client)
    | _ => false)

/-- The instructions to close that `client` receives in a trace. -/
def closesOf (client : Nat) (tr : List Event) : List Event :=
  tr.filter (fun e => match e with
    | Event.clientTerminate cl => decide (cl = client)
    | _ => false)

/-- The releases (`json_object_put`) of the object at `addr` in a trace. -/
def putsOf (addr : Nat) (tr : List Event) : List Event :=
  tr.filter (fun e => match e with
    | Event.jsonPut a => decide (a = addr)
    | _ => false)

/-- What one pass of the dispatch loop does with packet `p`: the visit of the
project of its originator, then the release of the payload. -/
def processPacket (MSG_ACK_UPDATEID : Nat) (deliver : Nat → Bool) (projects : ProjectMap)
    (p : Packet) : List Event :=
  loopProject projects p.c.pid (dispatch MSG_ACK_UPDATEID deliver p) []
    ++ [Event.jsonPut p.obj.addr]

/-! ## The reference count of a payload -/

/-- Whether an event is `json_object_get` on the object at `addr`. -/
def isGet (addr : Nat) : Event → Bool
  | Event.jsonGet a => decide (a = addr)
  | _ => false

/-- Whether an event is `json_object_put` on the object at `addr`. -/
def isPut (addr : Nat) : Event → Bool
  | Event.jsonPut a => decide (a = addr)
  | _ => false

/-- Whether an event hands the object at `addr` to a client by `post`. -/
def isHandOff (addr : Nat) : Event → Bool
  | Event.post _ _ obj _ => decide (obj.addr = addr)
  | _ => false

/-- The payload at some address while one pass of the dispatch loop and the recipients
of its hand-offs run side by side: the calls the dispatch thread has still to make in
this pass, the reference count of the payload, and the connections that hold a
reference they have not yet released. -/
structure RefState where
  pending : List Event
  count : Nat
  held : List Nat
deriving DecidableEq

/-- Who moves next: the dispatch thread makes its next call, or a recipient releases
the reference it was handed (`json_object_put` on its own outbound path). -/
inductive Act where
  | dispatcher
  | release (client : Nat)
deriving DecidableEq

/-- One move on the payload at `addr`. json-c counts references: `json_object_get` adds
one, `json_object_put` takes one away. A move that is not possible (nothing pending, a
release by a connection that holds nothing) changes nothing. -/
def refStep (addr : Nat) : Act → RefState → RefState
  | Act.dispatcher, st =>
    match st.pending with
    | [] => st
    | e :: rest =>
      if isGet addr e then { pending := rest, count := st.count + 1, held := st.held }
      else if isPut addr e then { pending := rest, count := st.count - 1, held := st.held }
      else
        match e with
        | Event.post cl _ obj _ =>
          if obj.addr = addr then
            { pending := rest, count := st.count, held := st.held ++ [cl] }
          else { pending := rest, count := st.count, held := st.held }
        | _ => { pending := rest, count := st.count, held := st.held }
  | Act.release cl, st =>
    if cl ∈ st.held then
      { pending := st.pending, count := st.count - 1, held := st.held.erase cl }
    else st

/-- The payload after a schedule of moves. -/
def refRun (addr : Nat) (acts : List Act) (st : RefState) : RefState :=
  acts.foldl (fun s a => refStep addr a s) st

/-- The connections a visit hands the packet to: the members of the originator's
project other than the originator, in visitation order. -/
def recipients (projects : ProjectMap) (p : Packet) : List Nat :=
  ((projects.members p.c.pid).filter (fun c => decide (c.ptr ≠ p.c.ptr))).map Client.ptr

/-- Every suffix of a list of pending calls has at least as many hand-offs of the
object at `addr` as references taken on it. -/
def Balanced (addr : Nat) : List Event → Prop
  | [] => True
  | e :: l =>
    (e :: l).countP (isGet addr) ≤ (e :: l).countP (isHandOff addr) ∧ Balanced addr l

/-! ## The operations of the manager -/

/-- The operations of a connection manager on its state and on the trace. -/
inductive Op where
  | getUserInfo (uid : Nat)
  | start
  | terminate
  | remove (c : Client)
  | dumpStats
  | listConnections
  | run (fuel : Nat)
  | runResume (fuel : Nat)
  | enqueue (p : Packet)

/-- The manager and the trace after one operation. `start` only creates the dispatch
thread, whose own steps are `run` and `runResume`. -/
def Op.apply (INVALID_UID MSG_ACK_UPDATEID : Nat) (deliver : Nat → Bool) :
    Op → ConnectionManager × List Event → ConnectionManager × List Event
  | Op.getUserInfo uid, (m, tr) =>
    ({ m with user_map := (CollabREate.getUserInfo INVALID_UID m.user_map uid).2 }, tr)
  | Op.start, st => st
  | Op.terminate, (m, tr) => CollabREate.terminate m tr
  | Op.remove c, (m, tr) => (CollabREate.remove m c, tr)
  | Op.dumpStats, st => st
  | Op.listConnections, st => st
  | Op.run fuel, (m, tr) => (CollabREate.run MSG_ACK_UPDATEID deliver fuel m tr).2
  | Op.runResume fuel, (m, tr) => (CollabREate.runResume MSG_ACK_UPDATEID deliver fuel m tr).2
  | Op.enqueue p, (m, tr) => (CollabREate.enqueue m p, tr)

/-! ## The invariant of the reference count -/

/-- The invariant of the reference count: the pending calls are balanced and the count
is `r`, plus the references taken so far, minus the releases so far. -/
def RefInv (addr r : Nat) (st : RefState) : Prop :=
  Balanced addr st.pending
  ∧ st.count + st.pending.countP (isGet addr) + 1
      = r + st.pending.countP (isHandOff addr) + st.held.length
          + st.pending.countP (isPut addr)

/-! ## Sample data -/

/-- Client A of the three-member project used in the examples. -/
def clientA : Client :=
  { ptr := 1, uid := 11, pid := 7, user := "a".toList, pub := 1, sub := 1,
    peerAddr := "10.0.0.1".toList, peerPort := 4001, stats := "A: 1/1\n".toList }

/-- Client B of the three-member project used in the examples. -/
def clientB : Client :=
  { ptr := 2, uid := 12, pid := 7, user := "b".toList, pub := 1, sub := 1,
    peerAddr := "10.0.0.2".toList, peerPort := 4002, stats := "B: 0/2\n".toList }

/-- Client C of the three-member project used in the examples. -/
def clientC : Client :=
  { ptr := 3, uid := 13, pid := 7, user := "c".toList, pub := 1, sub := 1,
    peerAddr := "10.0.0.3".toList, peerPort := 4003, stats := "C: 5/0\n".toList }

/-- A directory with project 7 = {A, B, C} and another project with one member. -/
def sampleProjects : ProjectMap :=
  [(7, [clientA, clientB, clientC]), (8, [{ clientA with ptr := 4, pid := 8 }])]

/-- A packet that A originates, with update identifier 42. -/
def samplePacket : Packet :=
  Packet.new clientA "update".toList { addr := 100, fields := [] } 42

/-- Client bob of the listing example: uid 3, pub 0x1, sub 0x2, pid 7. -/
def clientBob : Client :=
  { ptr := 9, uid := 3, pid := 7, user := "bob".toList, pub := 1, sub := 2,
    peerAddr := "192.168.1.20".toList, peerPort := 51234, stats := [] }

/-! ## Lemmas on directory visits -/

theorem loopList_append {α : Type} (f : Client → List α)
    (visit : Client → List α → List α × Bool)
    (hv : ∀ c s, visit c s = (s ++ f c, true)) :
    ∀ (cs : List Client) (s : List α), loopList visit cs s = s ++ cs.flatMap f := by
  intro cs
  induction cs with
  | nil => intro s; simp [loopList]
  | cons c cs ih =>
    intro s
    simp [loopList, hv, ih, List.append_assoc]

theorem dispatch_eq (MSG : Nat) (deliver : Nat → Bool) (p : Packet) (c : Client)
    (tr : List Event) :
    dispatch MSG deliver p c tr = (tr ++ (dispatch MSG deliver p c []).1, true) := by
  unfold dispatch
  by_cases h : c.ptr = p.c.ptr <;> simp [h]

theorem loopList_dispatch (MSG : Nat) (deliver : Nat → Bool) (p : Packet)
    (cs : List Client) (tr : List Event) :
    loopList (dispatch MSG deliver p) cs tr
      = tr ++ cs.flatMap (fun c => (dispatch MSG deliver p c []).1) :=
  loopList_append (fun c => (dispatch MSG deliver p c []).1) (dispatch MSG deliver p)
    (fun c s => dispatch_eq MSG deliver p c s) cs tr

theorem find_isSome_iff (um : UserMap) (uid : Nat) :
    (UserMap.find um uid).isSome = true ↔ uid ∈ um.map Prod.fst := by
  induction um with
  | nil => simp [UserMap.find]
  | cons e rest ih =>
    obtain ⟨k, v⟩ := e
    by_cases h : k = uid
    · simp [UserMap.find, h]
    · have h2 : ¬ uid = k := fun e => h e.symm
      simp only [UserMap.find, h, if_false, ih, List.map_cons, List.mem_cons, h2, false_or]

theorem find_mem (um : UserMap) (uid : Nat) (r : UserInfo) (h : UserMap.find um uid = some r) :
    (uid, r) ∈ um := by
  induction um with
  | nil => simp [UserMap.find] at h
  | cons e rest ih =>
    obtain ⟨k, v⟩ := e
    by_cases hk : k = uid
    · simp [UserMap.find, hk] at h
      simp [hk, h]
    · simp only [UserMap.find, hk, if_false] at h
      exact List.mem_cons_of_mem _ (ih h)

/-! ## The registry -/

/-- Claim C4 (registry sentinel): `getUserInfo` is total; for a uid that is a key of the
registry it returns the record registered under it, for any other uid it returns the
sentinel record (username "invalid", uid `INVALID_UID`, pub 0, sub 0); in both cases
the registry is left as it was, so a miss inserts nothing. -/
theorem getUserInfo_sentinel (INVALID_UID : Nat) (user_map : UserMap) (uid : Nat) :
    ((getUserInfo INVALID_UID user_map uid).2 = user_map)
    ∧ (uid ∈ user_map.map Prod.fst →
        ∃ r, (uid, r) ∈ user_map ∧ UserMap.find user_map uid = some r
          ∧ (getUserInfo INVALID_UID user_map uid).1 = r)
    ∧ (uid ∉ user_map.map Prod.fst →
        (getUserInfo INVALID_UID user_map uid).1
          = { username := "invalid".toList, uid := INVALID_UID, pub := 0, sub := 0 }
        ∧ (getUserInfo INVALID_UID user_map uid).1.uid = INVALID_UID) := by
  refine ⟨?_, ?_, ?_⟩
  · unfold getUserInfo UserMap.index
    cases h : UserMap.find user_map uid <;> simp
  · intro hk
    have hs := (find_isSome_iff user_map uid).2 hk
    cases h : UserMap.find user_map uid with
    | none => simp [h] at hs
    | some r =>
      refine ⟨r, find_mem user_map uid r h, rfl, ?_⟩
      simp [getUserInfo, UserMap.index, h]
  · intro hk
    have hs : UserMap.find user_map uid = none := by
      cases h : UserMap.find user_map uid with
      | none => rfl
      | some r =>
        exact absurd ((find_isSome_iff user_map uid).1 (by simp [h])) hk
    simp [getUserInfo, hs, UserInfo.invalid]

/-- A registry with two users, looked up at a registered and at an unknown uid. -/
theorem getUserInfo_sentinel_witness :
    getUserInfo 4294967295
        [(5, UserInfo.new "alice".toList 5 3 1), (9, UserInfo.new "bob".toList 9 1 1)] 9
      = (UserInfo.new "bob".toList 9 1 1,
         [(5, UserInfo.new "alice".toList 5 3 1), (9, UserInfo.new "bob".toList 9 1 1)])
    ∧ (getUserInfo 4294967295
        [(5, UserInfo.new "alice".toList 5 3 1), (9, UserInfo.new "bob".toList 9 1 1)] 7).1.uid
      = 4294967295 := by
  refine ⟨by decide, ?_⟩
  exact ((getUserInfo_sentinel 4294967295
    [(5, UserInfo.new "alice".toList 5 3 1), (9, UserInfo.new "bob".toList 9 1 1)] 7).2.2
      (by decide)).2

/-! ## The dispatch callback -/

/-- Claim C1 (no self-forward): one call of the dispatch callback on a visited client
`c` for a packet built by the constructor with update identifier `updateid` returns
true and adds to the trace, when `c` is the originator, exactly one `send_data` of
type `MSG_ACK_UPDATEID` whose only field is "updateid" with value `updateid`, and no
`post`; when `c` is not the originator, one reference and one `post` of the packet's
command and payload, and no `send_data`. -/
theorem dispatch_no_self_forward (MSG_ACK_UPDATEID : Nat) (deliver : Nat → Bool)
    (src : Client) (cmd : Str) (obj : JsonObj) (updateid : Nat) (c : Client)
    (tr : List Event) :
    (Packet.new src cmd obj updateid).uid = updateid
    ∧ dispatch MSG_ACK_UPDATEID deliver (Packet.new src cmd obj updateid) c tr
        = (tr ++ (dispatch MSG_ACK_UPDATEID deliver (Packet.new src cmd obj updateid) c []).1,
           true)
    ∧ (if c.ptr = src.ptr then
        (dispatch MSG_ACK_UPDATEID deliver (Packet.new src cmd obj updateid) c []).1
            = [Event.sendData c.ptr MSG_ACK_UPDATEID [("updateid".toList, updateid)]]
          ∧ postsTo c.ptr
              (dispatch MSG_ACK_UPDATEID deliver (Packet.new src cmd obj updateid) c []).1 = []
          ∧ sendsTo c.ptr
              (dispatch MSG_ACK_UPDATEID deliver (Packet.new src cmd obj updateid) c []).1
              = [Event.sendData c.ptr MSG_ACK_UPDATEID [("updateid".toList, updateid)]]
       else
        (dispatch MSG_ACK_UPDATEID deliver (Packet.new src cmd obj updateid) c []).1
            = [Event.jsonGet obj.addr,
               Event.post c.ptr cmd (Packet.new src cmd obj updateid).obj (deliver c.ptr)]
          ∧ sendsTo c.ptr
              (dispatch MSG_ACK_UPDATEID deliver (Packet.new src cmd obj updateid) c []).1
              = []) := by
  refine ⟨rfl, dispatch_eq _ _ _ _ _, ?_⟩
  by_cases h : c.ptr = src.ptr
  · simp [h, dispatch, Packet.new, postsTo, sendsTo, append_json_uint64_val,
      json_object_new_object]
  · simp [h, dispatch, Packet.new, postsTo, sendsTo]

theorem loopProject_dispatch (MSG : Nat) (deliver : Nat → Bool) (projects : ProjectMap)
    (p : Packet) (tr : List Event) :
    loopProject projects p.c.pid (dispatch MSG deliver p) tr
      = tr ++ loopProject projects p.c.pid (dispatch MSG deliver p) [] := by
  unfold loopProject
  rw [loopList_dispatch, loopList_dispatch MSG deliver p _ []]
  simp

theorem postsTo_append (x : Nat) (a b : List Event) :
    postsTo x (a ++ b) = postsTo x a ++ postsTo x b := by
  simp [postsTo]

theorem postsTo_dispatch_other (MSG : Nat) (deliver : Nat → Bool) (p : Packet) (x : Nat)
    (c : Client) (h : c.ptr ≠ x) : postsTo x (dispatch MSG deliver p c []).1 = [] := by
  unfold dispatch
  by_cases hc : c.ptr = p.c.ptr <;> simp [hc, postsTo, h]

theorem postsTo_absent (MSG : Nat) (deliver : Nat → Bool) (p : Packet) (x : Nat) :
    ∀ cs : List Client, x ∉ cs.map Client.ptr →
      postsTo x (cs.flatMap (fun c => (dispatch MSG deliver p c []).1)) = [] := by
  intro cs
  induction cs with
  | nil => intro _; simp [postsTo]
  | cons c cs ih =>
    intro hx
    simp only [List.map_cons, List.mem_cons, not_or] at hx
    rw [List.flatMap_cons, postsTo_append, ih hx.2,
      postsTo_dispatch_other MSG deliver p x c (fun e => hx.1 e.symm)]
    rfl

theorem postsTo_member (MSG : Nat) (deliver : Nat → Bool) (p : Packet) :
    ∀ cs : List Client, (cs.map Client.ptr).Nodup → ∀ c ∈ cs, c.ptr ≠ p.c.ptr →
      postsTo c.ptr (cs.flatMap (fun d => (dispatch MSG deliver p d []).1))
        = [Event.post c.ptr p.cmd p.obj (deliver c.ptr)] := by
  intro cs
  induction cs with
  | nil => intro _ c hc; simp at hc
  | cons d cs ih =>
    intro hnd c hc hne
    simp only [List.map_cons, List.nodup_cons] at hnd
    rw [List.flatMap_cons, postsTo_append]
    rcases List.mem_cons.1 hc with rfl | hmem
    · rw [postsTo_absent MSG deliver p c.ptr cs hnd.1]
      simp [dispatch, hne, postsTo]
    · have hdc : d.ptr ≠ c.ptr := by
        intro e
        exact hnd.1 (e ▸ List.mem_map_of_mem Client.ptr hmem)
      rw [postsTo_dispatch_other MSG deliver p c.ptr d hdc, ih hnd.2 c hmem hne]
      rfl

/-- Claim C2 (fan-out completeness): when the directory lists each member of the
originator's project once, the visit with the dispatch callback adds to the trace the
events of every member in visitation order, so that every member other than the
originator is posted the packet's command and payload exactly once, whether or not
the hand-off to an earlier member got through; the originator is posted nothing and
the callback returns true on every client and every context. -/
theorem dispatch_fanout (MSG_ACK_UPDATEID : Nat) (deliver : Nat → Bool)
    (projects : ProjectMap) (p : Packet) (tr : List Event)
    (hnd : ((projects.members p.c.pid).map Client.ptr).Nodup) :
    (∀ (c : Client) (st : List Event), (dispatch MSG_ACK_UPDATEID deliver p c st).2 = true)
    ∧ loopProject projects p.c.pid (dispatch MSG_ACK_UPDATEID deliver p) tr
        = tr ++ (projects.members p.c.pid).flatMap
            (fun c => (dispatch MSG_ACK_UPDATEID deliver p c []).1)
    ∧ (∀ c ∈ projects.members p.c.pid, c.ptr ≠ p.c.ptr →
        postsTo c.ptr (loopProject projects p.c.pid (dispatch MSG_ACK_UPDATEID deliver p) [])
          = [Event.post c.ptr p.cmd p.obj (deliver c.ptr)])
    ∧ postsTo p.c.ptr (loopProject projects p.c.pid (dispatch MSG_ACK_UPDATEID deliver p) [])
        = [] := by
  refine ⟨?_, ?_, ?_, ?_⟩
  · intro c st
    rw [dispatch_eq]
  · unfold loopProject
    exact loopList_dispatch _ _ _ _ _
  · intro c hc hne
    unfold loopProject
    rw [loopList_dispatch, List.nil_append]
    exact postsTo_member MSG_ACK_UPDATEID deliver p _ hnd c hc hne
  · unfold loopProject
    rw [loopList_dispatch, List.nil_append]
    generalize projects.members p.c.pid = cs
    induction cs with
    | nil => simp [postsTo]
    | cons d cs ih =>
      rw [List.flatMap_cons, postsTo_append, ih]
      by_cases hd : d.ptr = p.c.ptr
      · simp [dispatch, hd, postsTo]
      · rw [postsTo_dispatch_other MSG_ACK_UPDATEID deliver p p.c.ptr d hd]
        rfl

/-- Project {A, B, C}, packet from A, delivery to B failing: C is still posted once. -/
theorem dispatch_fanout_witness :
    postsTo clientC.ptr
        (loopProject sampleProjects samplePacket.c.pid
          (dispatch 20 (fun x => decide (x ≠ 2)) samplePacket) [])
      = [Event.post 3 "update".toList samplePacket.obj true]
    ∧ postsTo clientB.ptr
        (loopProject sampleProjects samplePacket.c.pid
          (dispatch 20 (fun x => decide (x ≠ 2)) samplePacket) [])
      = [Event.post 2 "update".toList samplePacket.obj false] :=
  ⟨(dispatch_fanout 20 (fun x => decide (x ≠ 2)) sampleProjects samplePacket []
      (by decide)).2.2.1 clientC (by decide) (by decide),
   (dispatch_fanout 20 (fun x => decide (x ≠ 2)) sampleProjects samplePacket []
      (by decide)).2.2.1 clientB (by decide) (by decide)⟩

/-! ## The dispatch loop -/

theorem foldl_enqueue (ps : List Packet) : ∀ m : ConnectionManager,
    ps.foldl enqueue m
      = { m with queue := m.queue ++ ps, queueSem := m.queueSem + ps.length } := by
  induction ps with
  | nil => intro m; simp
  | cons p ps ih =>
    intro m
    rw [List.foldl_cons, ih]
    simp [enqueue, List.append_assoc, Nat.add_assoc, Nat.add_comm 1]

theorem runBody_cons (MSG : Nat) (deliver : Nat → Bool) (m : ConnectionManager)
    (tr : List Event) (p : Packet) (rest : List Packet) (hq : m.queue = p :: rest)
    (hs : 0 < m.queueSem) :
    runBody MSG deliver m tr
      = (Status.more, { m with queueSem := m.queueSem - 1, queue := rest },
         tr ++ processPacket MSG deliver m.projects p) := by
  unfold runBody processPacket
  rw [if_neg (Nat.pos_iff_ne_zero.1 hs), hq]
  simp only
  rw [loopProject_dispatch]
  simp [List.append_assoc]

theorem run_drain (MSG : Nat) (deliver : Nat → Bool) (extra : Nat) :
    ∀ (q : List Packet) (m : ConnectionManager) (tr : List Event),
      m.done = false → m.queue = q → m.queueSem = q.length →
      run MSG deliver (q.length + 1 + extra) m tr
        = (Status.blocked, { m with queue := [], queueSem := 0 },
           tr ++ q.flatMap (processPacket MSG deliver m.projects)) := by
  intro q
  induction q with
  | nil =>
    intro m tr hd hq hs
    obtain ⟨conf, done, pl, qs, qm, queue, um, projects⟩ := m
    simp only at hd hq hs
    subst hd hq hs
    have hfuel : ([] : List Packet).length + 1 + extra = extra + 1 := by simp; omega
    rw [hfuel]
    simp [run, runBody]
  | cons p rest ih =>
    intro m tr hd hq hs
    obtain ⟨conf, done, pl, qs, qm, queue, um, projects⟩ := m
    simp only at hd hq hs
    subst hd hq hs
    have hfuel : (p :: rest).length + 1 + extra = (rest.length + 1 + extra) + 1 := by
      simp; omega
    have hstep := runBody_cons MSG deliver
      { conf := conf, done := false, pidLock := pl, queueSem := (p :: rest).length,
        queueMutex := qm, queue := p :: rest, user_map := um, projects := projects }
      tr p rest rfl (by simp)
    have hrest := ih
      { conf := conf, done := false, pidLock := pl, queueSem := (p :: rest).length - 1,
        queueMutex := qm, queue := rest, user_map := um, projects := projects }
      (tr ++ processPacket MSG deliver projects p) rfl rfl (by simp)
    rw [hfuel, run]
    simp only [Bool.false_eq_true, if_false]
    rw [hstep]
    simp only
    rw [hrest]
    simp [List.append_assoc]

/-- Claim C3 (FIFO preservation): one pass of the loop takes the packet at the front of
the queue, removes only it and leaves the rest of the queue in order; so on a live
manager whose queue `q` is matched by the availability counter, after packets `ps`
are enqueued one after another, the loop processes exactly the packets of `q` and then
those of `ps`, each once and in that order, and then waits with the queue empty. -/
theorem run_fifo (MSG_ACK_UPDATEID : Nat) (deliver : Nat → Bool) (m : ConnectionManager)
    (ps : List Packet) (tr : List Event) (extra : Nat)
    (hdone : m.done = false) (hsem : m.queueSem = m.queue.length) :
    (∀ (p : Packet) (rest : List Packet), m.queue = p :: rest → 0 < m.queueSem →
      runBody MSG_ACK_UPDATEID deliver m tr
        = (Status.more, { m with queueSem := m.queueSem - 1, queue := rest },
           tr ++ processPacket MSG_ACK_UPDATEID deliver m.projects p))
    ∧ (ps.foldl enqueue m).queue = m.queue ++ ps
    ∧ run MSG_ACK_UPDATEID deliver (m.queue.length + ps.length + 1 + extra)
          (ps.foldl enqueue m) tr
        = (Status.blocked, { m with queue := [], queueSem := 0 },
           tr ++ (m.queue ++ ps).flatMap (processPacket MSG_ACK_UPDATEID deliver m.projects))
    := by
  refine ⟨fun p rest hq hs => runBody_cons _ _ m tr p rest hq hs, ?_, ?_⟩
  · rw [foldl_enqueue]
  · have h := run_drain MSG_ACK_UPDATEID deliver extra (m.queue ++ ps) (ps.foldl enqueue m) tr
      (by rw [foldl_enqueue]; exact hdone) (by rw [foldl_enqueue])
      (by rw [foldl_enqueue]; simp [hsem])
    rw [List.length_append] at h
    rw [h, foldl_enqueue]

/-- Packets P1 and P2 enqueued on a fresh manager are processed in that order. -/
theorem run_fifo_witness :
    run 20 (fun _ => true)
        (({ ConnectionManager.new none with projects := sampleProjects }).queue.length
          + [samplePacket, { samplePacket with c := clientB, uid := 43 }].length + 1 + 0)
        ([samplePacket, { samplePacket with c := clientB, uid := 43 }].foldl enqueue
          { ConnectionManager.new none with projects := sampleProjects }) []
      = (Status.blocked,
         { { ConnectionManager.new none with projects := sampleProjects } with
             queue := [], queueSem := 0 },
         [] ++ (({ ConnectionManager.new none with projects := sampleProjects }).queue
                ++ [samplePacket, { samplePacket with c := clientB, uid := 43 }]).flatMap
              (processPacket 20 (fun _ => true)
                ({ ConnectionManager.new none with projects := sampleProjects }).projects)) :=
  (run_fifo 20 (fun _ => true) { ConnectionManager.new none with projects := sampleProjects }
    [samplePacket, { samplePacket with c := clientB, uid := 43 }] [] 0 rfl rfl).2.2

/-! ## Introspection: statistics -/

theorem loopClients_clientStats (projects : ProjectMap) :
    loopClients projects clientStats [] = projects.allClients.flatMap Client.stats := by
  unfold loopClients
  rw [loopList_append Client.stats clientStats (fun c s => rfl)]
  simp

/-- Claim C7, as stated, fails: a directory whose only client reports an empty
statistics text is not empty, yet `dumpStats` returns the fixed "- none -" text, which
is not "Stats:\n" followed by the concatenation of the clients' texts; and a directory
whose only client reports the text " - none - \n" is not empty either and also gets
the fixed text. -/
theorem dumpStats_fixed_text_nonempty_directory :
    ({ ConnectionManager.new none with
        projects := [(7, [{ clientA with stats := [] }])] }).projects.allClients ≠ []
    ∧ dumpStats { ConnectionManager.new none with
        projects := [(7, [{ clientA with stats := [] }])] } = "Stats:\n - none - \n".toList
    ∧ dumpStats { ConnectionManager.new none with
        projects := [(7, [{ clientA with stats := [] }])] }
      ≠ "Stats:\n".toList
        ++ ({ ConnectionManager.new none with
              projects := [(7, [{ clientA with stats := [] }])] }).projects.allClients.flatMap
            Client.stats
    ∧ ({ ConnectionManager.new none with
        projects := [(7, [{ clientA with stats := " - none - \n".toList }])]
        }).projects.allClients ≠ []
    ∧ dumpStats { ConnectionManager.new none with
        projects := [(7, [{ clientA with stats := " - none - \n".toList }])] }
      = "Stats:\n - none - \n".toList := by
  decide

/-- Claim C7 (stats aggregation), amended: `dumpStats` is total and returns a text only;
when the concatenation, in visitation order, of the clients' statistics texts is empty
(in particular when the directory is empty) it returns the fixed text
"Stats:\n - none - \n", and otherwise "Stats:\n" followed by that concatenation; so it
returns the fixed text exactly when that concatenation is empty or is itself the
text " - none - \n". -/
theorem dumpStats_aggregation (m : ConnectionManager) :
    dumpStats m
      = (if m.projects.allClients.flatMap Client.stats = []
         then "Stats:\n - none - \n".toList
         else "Stats:\n".toList ++ m.projects.allClients.flatMap Client.stats)
    ∧ (m.projects.allClients = [] → dumpStats m = "Stats:\n - none - \n".toList)
    ∧ (dumpStats m = "Stats:\n - none - \n".toList
        ↔ (m.projects.allClients.flatMap Client.stats = []
            ∨ m.projects.allClients.flatMap Client.stats = " - none - \n".toList)) := by
  have h : dumpStats m
      = (if m.projects.allClients.flatMap Client.stats = []
         then "Stats:\n - none - \n".toList
         else "Stats:\n".toList ++ m.projects.allClients.flatMap Client.stats) := by
    unfold dumpStats
    simp only [loopClients_clientStats, List.length_eq_zero]
  have hfix : "Stats:\n - none - \n".toList = "Stats:\n".toList ++ " - none - \n".toList := by
    decide
  refine ⟨h, ?_, ?_⟩
  · intro he
    rw [h, he]
    rfl
  · rw [h]
    by_cases hc : m.projects.allClients.flatMap Client.stats = []
    · simp [hc]
    · rw [if_neg hc, hfix]
      constructor
      · intro heq
        exact Or.inr (List.append_cancel_left heq)
      · intro hor
        rcases hor with h1 | h2
        · exact absurd h1 hc
        · rw [h2]

/-- The directory {A, B, C} plus one: the texts are concatenated in visitation order. -/
theorem dumpStats_aggregation_witness :
    dumpStats { ConnectionManager.new none with projects := sampleProjects }
      = "Stats:\nA: 1/1\nB: 0/2\nC: 5/0\nA: 1/1\n".toList
    ∧ dumpStats (ConnectionManager.new none) = "Stats:\n - none - \n".toList :=
  ⟨by rw [(dumpStats_aggregation _).1]; decide,
   (dumpStats_aggregation (ConnectionManager.new none)).2.1 rfl⟩

/-! ## Termination -/

theorem runBody_done (MSG : Nat) (deliver : Nat → Bool) (m : ConnectionManager)
    (tr : List Event) : (runBody MSG deliver m tr).2.1.done = m.done := by
  unfold runBody
  by_cases h : m.queueSem = 0
  · simp [h]
  · cases hq : m.queue <;> simp [h]

theorem run_done (MSG : Nat) (deliver : Nat → Bool) :
    ∀ (fuel : Nat) (m : ConnectionManager) (tr : List Event),
      (run MSG deliver fuel m tr).2.1.done = m.done := by
  intro fuel
  induction fuel with
  | zero => intro m tr; rfl
  | succ n ih =>
    intro m tr
    have hb := runBody_done MSG deliver m tr
    unfold run
    split
    · rfl
    · rcases hr : runBody MSG deliver m tr with ⟨st, m1, tr1⟩
      rw [hr] at hb
      cases st
      · exact hb
      · exact hb
      · exact hb
      · simp only
        rw [ih]
        exact hb

theorem runResume_done (MSG : Nat) (deliver : Nat → Bool) (fuel : Nat)
    (m : ConnectionManager) (tr : List Event) :
    (runResume MSG deliver fuel m tr).2.1.done = m.done := by
  unfold runResume
  have hb := runBody_done MSG deliver m tr
  rcases hr : runBody MSG deliver m tr with ⟨st, m1, tr1⟩
  rw [hr] at hb
  cases st
  · exact hb
  · exact hb
  · exact hb
  · simp only
    rw [run_done]
    exact hb

theorem flatMap_singleton_eq_map {α β : Type} (f : α → β) (l : List α) :
    l.flatMap (fun a => [f a]) = l.map f := by
  induction l with
  | nil => rfl
  | cons a l ih => simp [List.flatMap_cons, ih]

theorem terminate_done (m : ConnectionManager) (tr : List Event) :
    (terminate m tr).1.done = true := by
  unfold terminate
  cases h : m.conf <;> simp [h]

theorem closesOf_map_absent (x : Nat) : ∀ cs : List Client, x ∉ cs.map Client.ptr →
    closesOf x (cs.map (fun c => Event.clientTerminate c.ptr)) = [] := by
  intro cs
  induction cs with
  | nil => intro _; rfl
  | cons d cs ih =>
    intro hx
    simp only [List.map_cons, List.mem_cons, not_or] at hx
    have ht := ih hx.2
    have hd : ¬ d.ptr = x := fun e => hx.1 e.symm
    simp only [closesOf] at ht ⊢
    simp [List.filter_cons, hd, ht]

theorem closesOf_map_member : ∀ cs : List Client, (cs.map Client.ptr).Nodup → ∀ c ∈ cs,
    closesOf c.ptr (cs.map (fun c => Event.clientTerminate c.ptr))
      = [Event.clientTerminate c.ptr] := by
  intro cs
  induction cs with
  | nil => intro _ c hc; simp at hc
  | cons d cs ih =>
    intro hnd c hc
    simp only [List.map_cons, List.nodup_cons] at hnd
    rcases List.mem_cons.1 hc with rfl | hmem
    · have ht := closesOf_map_absent c.ptr cs hnd.1
      simp only [closesOf] at ht ⊢
      simp [List.filter_cons, ht]
    · have hdc : ¬ d.ptr = c.ptr := by
        intro e
        exact hnd.1 (e ▸ List.mem_map_of_mem Client.ptr hmem)
      have ht := ih hnd.2 c hmem
      simp only [closesOf] at ht ⊢
      simp [List.filter_cons, hdc, ht]

/-- Claim C8, as stated, fails: a manager constructed without a configuration object
(`conf == NULL`) is not done; `terminate` sets `done` and tells the four clients of
the sample directory to close, and that is all it does: no `json_object_put` is made,
so nothing is released. -/
theorem terminate_without_conf_releases_nothing :
    ({ ConnectionManager.new none with projects := sampleProjects }).done = false
    ∧ (terminate { ConnectionManager.new none with projects := sampleProjects } []).1.done
        = true
    ∧ (terminate { ConnectionManager.new none with projects := sampleProjects } []).2
        = [Event.clientTerminate 1, Event.clientTerminate 2, Event.clientTerminate 3,
           Event.clientTerminate 4] := by
  decide

/-- Claim C8 (termination effect), amended: on a manager that tracks each client once,
`terminate` leaves `done` true, whatever it was before (so also when it was false),
and no configuration held; what it adds to the trace is one instruction to close for
every tracked client of every project, in visitation order (the visitor always returns
true), followed, when the manager held a configuration object, by the single release
of that object, and by nothing when it held none; and an operation of the manager
applied when `done` is true leaves it true. -/
theorem terminate_effect (INVALID_UID MSG_ACK_UPDATEID : Nat) (deliver : Nat → Bool)
    (m : ConnectionManager) (tr : List Event)
    (hnd : (m.projects.allClients.map Client.ptr).Nodup) :
    (terminate m tr).1.done = true
    ∧ (terminate m tr).1.conf = none
    ∧ (∀ (c : Client) (st : List Event), (termClients c st).2 = true)
    ∧ (terminate m tr).2
        = tr ++ (m.projects.allClients.map (fun c => Event.clientTerminate c.ptr)
                  ++ m.conf.toList.map (fun conf => Event.jsonPut conf.addr))
    ∧ (∀ c ∈ m.projects.allClients,
        closesOf c.ptr ((terminate m []).2) = [Event.clientTerminate c.ptr])
    ∧ (∀ conf : JsonObj, m.conf = some conf →
        putsOf conf.addr ((terminate m []).2) = [Event.jsonPut conf.addr])
    ∧ (m.conf = none → ∀ addr : Nat, putsOf addr ((terminate m []).2) = [])
    ∧ (∀ (op : Op) (st : ConnectionManager × List Event), st.1.done = true →
        (op.apply INVALID_UID MSG_ACK_UPDATEID deliver st).1.done = true) := by
  have htr : ∀ t : List Event, (terminate m t).2
      = t ++ (m.projects.allClients.map (fun c => Event.clientTerminate c.ptr)
                ++ m.conf.toList.map (fun conf => Event.jsonPut conf.addr)) := by
    intro t
    unfold terminate
    cases hconf : m.conf with
    | none =>
      simp only [hconf, loopClients]
      rw [loopList_append (fun c => [Event.clientTerminate c.ptr]) termClients
        (fun c s => rfl), flatMap_singleton_eq_map]
      simp
    | some conf =>
      simp only [hconf, loopClients]
      rw [loopList_append (fun c => [Event.clientTerminate c.ptr]) termClients
        (fun c s => rfl), flatMap_singleton_eq_map]
      simp [List.append_assoc]
  have hputs : ∀ (addr : Nat) (cs : List Client),
      putsOf addr (cs.map (fun c => Event.clientTerminate c.ptr)) = [] := by
    intro addr cs
    simp [putsOf, List.filter_map, Function.comp_def]
  have hcloses : ∀ (x : Nat) (o : Option JsonObj),
      closesOf x (o.toList.map (fun conf => Event.jsonPut conf.addr)) = [] := by
    intro x o
    cases o <;> simp [closesOf]
  refine ⟨terminate_done m tr, ?_, fun c st => rfl, htr tr, ?_, ?_, ?_, ?_⟩
  · unfold terminate
    cases hconf : m.conf <;> simp [hconf]
  · intro c hc
    rw [htr, List.nil_append]
    have h1 := closesOf_map_member m.projects.allClients hnd c hc
    have h2 := hcloses c.ptr m.conf
    simp only [closesOf] at h1 h2 ⊢
    rw [List.filter_append, h1, h2]
    rfl
  · intro conf hconf
    rw [htr, List.nil_append]
    have h1 := hputs conf.addr m.projects.allClients
    simp only [putsOf] at h1 ⊢
    rw [List.filter_append, h1, hconf]
    simp
  · intro hconf addr
    rw [htr, List.nil_append]
    have h1 := hputs addr m.projects.allClients
    simp only [putsOf] at h1 ⊢
    rw [List.filter_append, h1, hconf]
    simp
  · intro op st hst
    obtain ⟨m0, t0⟩ := st
    simp only at hst
    cases op with
    | getUserInfo uid => exact hst
    | start => exact hst
    | terminate => exact terminate_done m0 t0
    | remove c => exact hst
    | dumpStats => exact hst
    | listConnections => exact hst
    | run fuel => simp only [Op.apply]; rw [run_done]; exact hst
    | runResume fuel => simp only [Op.apply]; rw [runResume_done]; exact hst
    | enqueue p => exact hst

/-- A live manager with a configuration object at address 500 over the sample
directory: C is told to close once and the configuration is released once. -/
theorem terminate_effect_witness :
    closesOf clientC.ptr
        ((terminate { ConnectionManager.new (some { addr := 500, fields := [] }) with
                       projects := sampleProjects } []).2) = [Event.clientTerminate 3]
    ∧ putsOf 500
        ((terminate { ConnectionManager.new (some { addr := 500, fields := [] }) with
                       projects := sampleProjects } []).2) = [Event.jsonPut 500] :=
  ⟨(terminate_effect 0 20 (fun _ => true)
      { ConnectionManager.new (some { addr := 500, fields := [] }) with
          projects := sampleProjects } []
      (by decide)).2.2.2.2.1 clientC (by decide),
   (terminate_effect 0 20 (fun _ => true)
      { ConnectionManager.new (some { addr := 500, fields := [] }) with
          projects := sampleProjects } []
      (by decide)).2.2.2.2.2.1 { addr := 500, fields := [] } rfl⟩

/-- Claim C9, on the code: a dispatch thread parked on the empty queue of a fresh
manager stays parked when `terminate` runs: `terminate` sets `done` and leaves the
availability counter at zero, and the resumed wait blocks again for every amount of
fuel, so the loop condition is never reached and `run` does not exit. -/
theorem run_parked_after_terminate (fuel : Nat) :
    (run 20 (fun _ => true) (fuel + 1)
        { ConnectionManager.new (some { addr := 500, fields := [] }) with
            projects := sampleProjects } []).1 = Status.blocked
    ∧ (terminate { ConnectionManager.new (some { addr := 500, fields := [] }) with
                    projects := sampleProjects } []).1.done = true
    ∧ (terminate { ConnectionManager.new (some { addr := 500, fields := [] }) with
                    projects := sampleProjects } []).1.queueSem = 0
    ∧ runResume 20 (fun _ => true) fuel
        (terminate { ConnectionManager.new (some { addr := 500, fields := [] }) with
                      projects := sampleProjects } []).1
        (terminate { ConnectionManager.new (some { addr := 500, fields := [] }) with
                      projects := sampleProjects } []).2
      = (Status.blocked,
         (terminate { ConnectionManager.new (some { addr := 500, fields := [] }) with
                       projects := sampleProjects } []).1,
         (terminate { ConnectionManager.new (some { addr := 500, fields := [] }) with
                       projects := sampleProjects } []).2) := by
  refine ⟨rfl, rfl, rfl, rfl⟩

/-! ## Introspection: the listing -/

theorem digitsAux_length_le (base : Nat) : ∀ (fuel k n : Nat) (acc : Str),
    1 ≤ k → n < base ^ k → (digitsAux base fuel n acc).length ≤ acc.length + k := by
  intro fuel
  induction fuel with
  | zero => intro k n acc _ _; simp [digitsAux]
  | succ f ih =>
    intro k n acc hk hn
    unfold digitsAux
    by_cases hz : n / base = 0
    · simp only [hz, if_true, List.length_cons]
      omega
    · simp only [hz, if_false]
      have hb : 0 < base := by
        rcases Nat.eq_zero_or_pos base with h0 | h0
        · subst h0; simp at hz
        · exact h0
      have hk2 : 2 ≤ k := by
        rcases Nat.lt_or_ge k 2 with h1 | h1
        · have hk1 : k = 1 := by omega
          subst hk1
          rw [pow_one] at hn
          exact absurd (Nat.div_eq_of_lt hn) hz
        · exact h1
      have hdiv : n / base < base ^ (k - 1) := by
        apply Nat.div_lt_of_lt_mul
        have hpow : base * base ^ (k - 1) = base ^ k := by
          rw [← pow_succ']
          congr 1
          omega
        rw [hpow]
        exact hn
      have h := ih (k - 1) (n / base) (digitChar (n % base) :: acc) (by omega) hdiv
      simp only [List.length_cons] at h
      omega

theorem natDigits_length_le (base k n : Nat) (hk : 1 ≤ k) (hn : n < base ^ k) :
    (natDigits base n).length ≤ k := by
  have h := digitsAux_length_le base (n + 1) k n [] hk hn
  simpa [natDigits] using h

theorem digitChar_hex (d : Nat) : digitChar d ∈ hexDigits := by
  unfold digitChar
  rcases Nat.lt_or_ge d hexDigits.length with h | h
  · rw [List.getD_eq_getElem _ _ h]
    exact List.getElem_mem h
  · rw [List.getD_eq_default _ _ h]
    decide

theorem digitsAux_hex (base : Nat) : ∀ (fuel n : Nat) (acc : Str),
    (∀ ch ∈ acc, ch ∈ hexDigits) →
    ∀ ch ∈ digitsAux base fuel n acc, ch ∈ hexDigits := by
  intro fuel
  induction fuel with
  | zero => intro n acc hacc; simpa [digitsAux] using hacc
  | succ f ih =>
    intro n acc hacc
    have hcons : ∀ ch ∈ digitChar (n % base) :: acc, ch ∈ hexDigits := by
      intro ch hch
      rcases List.mem_cons.1 hch with rfl | h
      · exact digitChar_hex _
      · exact hacc ch h
    unfold digitsAux
    by_cases hz : n / base = 0
    · simp only [hz, if_true]
      exact hcons
    · simp only [hz, if_false]
      exact ih _ _ hcons

theorem snprintf_fits (size : Nat) (out : Str) (h : out.length ≤ size - 1) :
    (snprintf size out).1 = out := by
  simp [snprintf, List.take_of_length_le h]

theorem fmtInt_toInt32_length (u : Nat) : (fmtInt (toInt32 u)).length ≤ 11 := by
  have hlt : u % 2 ^ 32 < 2 ^ 32 := Nat.mod_lt _ (by norm_num)
  have habs : (toInt32 u).natAbs < 10 ^ 10 := by
    unfold toInt32
    split_ifs with h <;> omega
  have hd := natDigits_length_le 10 10 (toInt32 u).natAbs (by norm_num) habs
  unfold fmtInt
  split_ifs <;> (try simp only [List.length_cons]) <;> omega

theorem fmtInt_small_length (u : Nat) (h : u < 10 ^ 9) : (fmtInt (toInt32 u)).length ≤ 9 := by
  have h32 : toInt32 u = (u : Int) := by
    unfold toInt32
    have hm : u % 2 ^ 32 = u := Nat.mod_eq_of_lt (by omega)
    rw [hm, if_pos (by omega)]
  rw [h32]
  unfold fmtInt
  rw [if_neg (by omega)]
  exact natDigits_length_le 10 9 _ (by norm_num) (by simpa using h)

theorem idField_eq (c : Client) : idField c = padRight 9 (fmtInt (toInt32 c.uid)) := by
  unfold idField
  apply snprintf_fits
  have h := fmtInt_toInt32_length c.uid
  simp only [padRight, List.length_append, List.length_replicate]
  omega

theorem maskField_eq (mask : Nat) :
    maskField mask
      = "0x".toList ++ padLeft '0' 8 (natDigits 16 (mask % 2 ^ 32)) ++ "     ".toList
    ∧ (padLeft '0' 8 (natDigits 16 (mask % 2 ^ 32))).length = 8 := by
  have hlt : mask % 2 ^ 32 < 16 ^ 8 := by
    have : mask % 2 ^ 32 < 2 ^ 32 := Nat.mod_lt _ (by norm_num)
    omega
  have hd := natDigits_length_le 16 8 _ (by norm_num) hlt
  have hlen : (padLeft '0' 8 (natDigits 16 (mask % 2 ^ 32))).length = 8 := by
    simp only [padLeft, List.length_append, List.length_replicate]
    omega
  refine ⟨?_, hlen⟩
  unfold maskField
  apply snprintf_fits
  simp only [List.length_append, hlen]
  decide

theorem clientList_eq (c : Client) (s : Str) :
    clientList c s = (s ++ (clientList c []).1, true) := by
  simp [clientList, List.append_assoc]

theorem loopClients_clientList (projects : ProjectMap) :
    loopClients projects clientList []
      = projects.allClients.flatMap (fun c => (clientList c []).1) := by
  unfold loopClients
  rw [loopList_append (fun c => (clientList c []).1) clientList clientList_eq]
  simp

/-- Claim C5, as stated, fails: the text for zero clients ends in "- none - " and a
newline, not in "- none -", and the line of client bob ends in "3: bob", a blank and a
newline, so that "3: bob" is a suffix neither of the line nor of the line without its
newline. -/
theorem listConnections_suffix_not_literal :
    listConnections (ConnectionManager.new none)
        = listHeader ++ " - none - \n".toList
    ∧ ¬ ("- none -".toList <:+ listConnections (ConnectionManager.new none))
    ∧ ¬ ("- none -".toList <:+ (listConnections (ConnectionManager.new none)).dropLast)
    ∧ (clientList clientBob []).1
        = ("3        192.168.1.20:51234            0x00000001     0x00000002     7     "
            ++ "  3: bob \n").toList
    ∧ ¬ ("3: bob".toList <:+ (clientList clientBob []).1)
    ∧ ¬ ("3: bob".toList <:+ (clientList clientBob []).1.dropLast) := by
  decide

/-- Claim C5 (listing format), amended: on a directory without clients
`listConnections` returns exactly the header line followed by " - none - \n"; on a
directory whose only client has uid 3, pub 0x1, sub 0x2, pid 7 and user name "bob" it
returns the header line followed by that client's line, which is "3" padded to nine
characters, the address and port fields, and then
"0x00000001     0x00000002     7       3: bob \n": the line contains 0x00000001 and
0x00000002 and ends with "3: bob", one blank and the newline. -/
theorem listConnections_format (m : ConnectionManager) (c : Client)
    (huid : c.uid = 3) (hpub : c.pub = 1) (hsub : c.sub = 2) (hpid : c.pid = 7)
    (huser : c.user = "bob".toList) (hone : m.projects.allClients = [c]) :
    (∀ m0 : ConnectionManager, m0.projects.allClients = [] →
        listConnections m0 = listHeader ++ " - none - \n".toList)
    ∧ listConnections m = listHeader ++ (clientList c []).1
    ∧ (clientList c []).1
        = "3        ".toList ++ ((addrField c).1 ++ portField c)
            ++ "0x00000001     0x00000002     7       3: bob \n".toList
    ∧ "0x00000001".toList <:+: (clientList c []).1
    ∧ "0x00000002".toList <:+: (clientList c []).1
    ∧ "3: bob \n".toList <:+ (clientList c []).1 := by
  have hid : idField c = "3        ".toList := by unfold idField; rw [huid]; rfl
  have hpidf : pidField c = "7     ".toList := by unfold pidField; rw [hpid]; rfl
  have huf : userField c = "  3: bob \n".toList := by unfold userField; rw [huid, huser]; rfl
  have hm1 : maskField 1 = "0x00000001     ".toList := by decide
  have hm2 : maskField 2 = "0x00000002     ".toList := by decide
  have hline : (clientList c []).1
      = "3        ".toList ++ ((addrField c).1 ++ portField c)
          ++ "0x00000001     0x00000002     7       3: bob \n".toList := by
    simp only [clientList, hid, hpub, hsub, hm1, hm2, hpidf, huf, List.nil_append,
      List.append_assoc]
    rfl
  refine ⟨?_, ?_, hline, ?_, ?_, ?_⟩
  · intro m0 h0
    unfold listConnections
    simp only [loopClients_clientList, h0]
    rfl
  · unfold listConnections
    simp only [loopClients_clientList, hone]
    have hne : ([c].flatMap (fun c => (clientList c []).1)).length ≠ 0 := by
      simp only [List.flatMap_cons, List.flatMap_nil, List.append_nil, hline,
        List.length_append]
      have : ("3        ".toList).length = 9 := by decide
      omega
    rw [if_neg hne]
    simp
  · rw [hline]
    exact ⟨"3        ".toList ++ ((addrField c).1 ++ portField c),
      "     0x00000002     7       3: bob \n".toList, by simp [List.append_assoc]⟩
  · rw [hline]
    exact ⟨"3        ".toList ++ ((addrField c).1 ++ portField c) ++ "0x00000001     ".toList,
      "     7       3: bob \n".toList, by simp [List.append_assoc]⟩
  · rw [hline]
    exact ⟨"3        ".toList ++ ((addrField c).1 ++ portField c)
      ++ "0x00000001     0x00000002     7       ".toList, by simp [List.append_assoc]⟩

/-- The listing of a directory whose only client is bob. -/
theorem listConnections_format_witness :
    listConnections { ConnectionManager.new none with projects := [(7, [clientBob])] }
      = listHeader ++ (clientList clientBob []).1
    ∧ "3: bob \n".toList <:+ (clientList clientBob []).1 :=
  ⟨(listConnections_format { ConnectionManager.new none with projects := [(7, [clientBob])] }
      clientBob rfl rfl rfl rfl rfl rfl).2.1,
   (listConnections_format { ConnectionManager.new none with projects := [(7, [clientBob])] }
      clientBob rfl rfl rfl rfl rfl rfl).2.2.2.2.2⟩

/-- Claim C6, as stated, fails: the id field of a client with uid 1234567890 has ten
characters, and the address:port field of a client whose peer address is a full IPv6
address has fifty. Moreover a uid of 2^31 is printed as -2147483648, and of a peer
address of 63 characters the buffer keeps the address without the colon. -/
theorem clientList_width_not_exact :
    (idField { clientBob with uid := 1234567890 }).length = 10
    ∧ ((addrField { clientBob with
            peerAddr := "2001:0db8:85a3:0000:0000:8a2e:0370:7334".toList }).1
        ++ portField { clientBob with
            peerAddr := "2001:0db8:85a3:0000:0000:8a2e:0370:7334".toList }).length = 50
    ∧ idField { clientBob with uid := 2147483648 } = "-2147483648".toList
    ∧ (addrField { clientBob with peerAddr := List.replicate 63 'a' }).1
        = List.replicate 63 'a' := by
  decide

theorem fmtInt_int_length (v : Int) (h1 : -2 ^ 31 ≤ v) (h2 : v < 2 ^ 31) :
    (fmtInt v).length ≤ 11 := by
  have habs : v.natAbs < 10 ^ 10 := by omega
  have hd := natDigits_length_le 10 10 v.natAbs (by norm_num) habs
  unfold fmtInt
  split_ifs <;> (try simp only [List.length_cons]) <;> omega

/-- Claim C6 (listing column widths), amended: the line of a client is the id field,
the address field, the port field, the two mask fields, the pid field and the user
field, in this order. For every client the id field has at least 9 characters and
address field and port field together at least 30. For a uid below 2^31 the id field
is the decimal uid followed by blanks up to 9 characters, and it has exactly 9
characters when the uid is below 10^9. For a peer address of at most 62 characters and
a port in the range of an int, address field and port field are the address, a colon,
the port as a signed decimal, and blanks up to the width d of the port, where d is
the distance between 30 and the length of address and colon; they have exactly 30
characters when address, colon and port have together at most 30. For every mask the
mask field is "0x", exactly 8 hexadecimal digits (those of the low 32 bits of the
mask) and five blanks. -/
theorem clientList_widths (c : Client) (s : Str) :
    (clientList c s).1
      = s ++ idField c ++ (addrField c).1 ++ portField c ++ maskField c.pub
          ++ maskField c.sub ++ pidField c ++ userField c
    ∧ 9 ≤ (idField c).length
    ∧ 30 ≤ ((addrField c).1 ++ portField c).length
    ∧ (c.uid < 2 ^ 31 →
        idField c
          = natDigits 10 c.uid ++ List.replicate (9 - (natDigits 10 c.uid).length) ' ')
    ∧ (c.uid < 10 ^ 9 → (idField c).length = 9)
    ∧ ((c_str c.peerAddr).length ≤ 62 → -2 ^ 31 ≤ c.peerPort → c.peerPort < 2 ^ 31 →
        (addrField c).1 ++ portField c
          = c_str c.peerAddr ++ ":".toList ++ fmtInt c.peerPort
              ++ List.replicate
                  ((30 - (((c_str c.peerAddr).length + 1 : Nat) : Int)).natAbs
                    - (fmtInt c.peerPort).length) ' ')
    ∧ ((c_str c.peerAddr).length + 1 + (fmtInt c.peerPort).length ≤ 30 →
        (addrField c).1 ++ portField c
            = c_str c.peerAddr ++ ":".toList ++ fmtInt c.peerPort
                ++ List.replicate
                    (30 - ((c_str c.peerAddr).length + 1 + (fmtInt c.peerPort).length)) ' '
          ∧ ((addrField c).1 ++ portField c).length = 30)
    ∧ (∀ mask : Nat,
        maskField mask
            = "0x".toList ++ padLeft '0' 8 (natDigits 16 (mask % 2 ^ 32)) ++ "     ".toList
          ∧ (padLeft '0' 8 (natDigits 16 (mask % 2 ^ 32))).length = 8
          ∧ ∀ ch ∈ padLeft '0' 8 (natDigits 16 (mask % 2 ^ 32)), ch ∈ hexDigits) := by
  have hid := idField_eq c
  have hlen : (addrField c).2 = (((c_str c.peerAddr).length + 1 : Nat) : Int) := by
    simp [addrField, snprintf]
  have hcolon : (":".toList).length = 1 := rfl
  refine ⟨rfl, ?_, ?_, ?_, ?_, ?_, ?_, ?_⟩
  · rw [hid]
    simp only [padRight, List.length_append, List.length_replicate]
    omega
  · simp only [portField, hlen]
    simp only [addrField, snprintf, padRight, List.length_append, List.length_take,
      List.length_replicate, hcolon]
    omega
  · intro hu
    have h32 : toInt32 c.uid = (c.uid : Int) := by
      unfold toInt32
      have hm : c.uid % 2 ^ 32 = c.uid := Nat.mod_eq_of_lt (by omega)
      rw [hm, if_pos (by omega)]
    have hf : fmtInt (c.uid : Int) = natDigits 10 c.uid := by
      unfold fmtInt
      rw [if_neg (by omega)]
      simp
    rw [hid, h32, hf]
    rfl
  · intro hu
    have h9 := fmtInt_small_length c.uid hu
    rw [hid]
    simp only [padRight, List.length_append, List.length_replicate]
    omega
  · intro haddr hp1 hp2
    have hpl := fmtInt_int_length c.peerPort hp1 hp2
    have ha : (addrField c).1 = c_str c.peerAddr ++ ":".toList := by
      unfold addrField
      apply snprintf_fits
      simp only [List.length_append, hcolon]
      omega
    have hp : portField c
        = fmtInt c.peerPort
            ++ List.replicate
                ((30 - (((c_str c.peerAddr).length + 1 : Nat) : Int)).natAbs
                  - (fmtInt c.peerPort).length) ' ' := by
      unfold portField
      rw [hlen, snprintf_fits]
      · rfl
      · simp only [padRight, List.length_append, List.length_replicate]
        omega
    rw [ha, hp]
    simp [List.append_assoc]
  · intro hfit
    have ha : (addrField c).1 = c_str c.peerAddr ++ ":".toList := by
      unfold addrField
      apply snprintf_fits
      simp only [List.length_append, hcolon]
      omega
    have hw : (30 - (((c_str c.peerAddr).length + 1 : Nat) : Int)).natAbs
        = 30 - ((c_str c.peerAddr).length + 1) := by omega
    have hp : portField c
        = fmtInt c.peerPort
            ++ List.replicate
                (30 - ((c_str c.peerAddr).length + 1 + (fmtInt c.peerPort).length)) ' ' := by
      unfold portField
      rw [hlen, hw, snprintf_fits]
      · simp only [padRight]
        congr 2
        omega
      · simp only [padRight, List.length_append, List.length_replicate]
        omega
    rw [ha, hp]
    refine ⟨by simp [List.append_assoc], ?_⟩
    simp only [List.length_append, List.length_replicate, hcolon]
    omega
  · intro mask
    refine ⟨(maskField_eq mask).1, (maskField_eq mask).2, ?_⟩
    intro ch hch
    simp only [padLeft, List.mem_append] at hch
    rcases hch with h | h
    · rw [List.eq_of_mem_replicate h]
      decide
    · exact digitsAux_hex 16 _ _ [] (by simp) ch h

/-- The fields of bob: nine and thirty characters, eight hexadecimal digits; and the
address and port fields of a client with a full IPv6 address. -/
theorem clientList_widths_witness :
    (idField clientBob).length = 9
    ∧ ((addrField clientBob).1 ++ portField clientBob).length = 30
    ∧ maskField (2 ^ 40 + 255) = "0x000000ff     ".toList
    ∧ (addrField { clientBob with
            peerAddr := "2001:0db8:85a3:0000:0000:8a2e:0370:7334".toList }).1
        ++ portField { clientBob with
            peerAddr := "2001:0db8:85a3:0000:0000:8a2e:0370:7334".toList }
      = "2001:0db8:85a3:0000:0000:8a2e:0370:7334:51234     ".toList :=
  ⟨(clientList_widths clientBob []).2.2.2.2.1 (by decide),
   ((clientList_widths clientBob []).2.2.2.2.2.2.1 (by decide)).2,
   by decide,
   by
    rw [(clientList_widths { clientBob with
          peerAddr := "2001:0db8:85a3:0000:0000:8a2e:0370:7334".toList } []).2.2.2.2.2.1
        (by decide) (by decide) (by decide)]
    decide⟩

/-! ## Reference counting -/

theorem balanced_le (addr : Nat) : ∀ l : List Event, Balanced addr l →
    l.countP (isGet addr) ≤ l.countP (isHandOff addr) := by
  intro l
  cases l with
  | nil => intro _; simp
  | cons e l => intro h; exact h.1

theorem balanced_block (MSG : Nat) (deliver : Nat → Bool) (p : Packet) (c : Client)
    (l : List Event) (h : Balanced p.obj.addr l) :
    Balanced p.obj.addr ((dispatch MSG deliver p c []).1 ++ l) := by
  have hle := balanced_le _ _ h
  by_cases hc : c.ptr = p.c.ptr
  · simp only [dispatch, hc, ne_eq, not_true_eq_false, if_false, List.nil_append,
      List.cons_append, Balanced, List.countP_cons, isGet, isHandOff]
    exact ⟨by simpa using hle, h⟩
  · simp only [dispatch, hc, ne_eq, not_false_eq_true, if_true, List.nil_append,
      List.cons_append, Balanced, List.countP_cons, isGet, isHandOff]
    refine ⟨by simp; omega, by simp; omega, h⟩

theorem balanced_visit (MSG : Nat) (deliver : Nat → Bool) (p : Packet) :
    ∀ cs : List Client,
      Balanced p.obj.addr
        (cs.flatMap (fun c => (dispatch MSG deliver p c []).1) ++ [Event.jsonPut p.obj.addr])
    := by
  intro cs
  induction cs with
  | nil => simp [Balanced, isGet, isHandOff]
  | cons c cs ih =>
    rw [List.flatMap_cons, List.append_assoc]
    exact balanced_block MSG deliver p c _ ih

theorem refInv_step (addr r : Nat) (hr : 1 ≤ r) (a : Act) (st : RefState)
    (h : RefInv addr r st) : RefInv addr r (refStep addr a st) := by
  obtain ⟨pending, count, held⟩ := st
  obtain ⟨hbal, heq⟩ := h
  simp only at hbal heq
  cases a with
  | dispatcher =>
    cases pending with
    | nil => exact ⟨hbal, heq⟩
    | cons e rest =>
      have hle := balanced_le addr _ hbal.2
      have hle0 := hbal.1
      refine ⟨?_, ?_⟩
      · have hp : (refStep addr Act.dispatcher
            { pending := e :: rest, count := count, held := held }).pending = rest := by
          cases e <;> simp only [refStep, isGet, isPut] <;> split_ifs <;> rfl
        rw [hp]
        exact hbal.2
      · cases e with
        | jsonGet a0 =>
          by_cases ha : a0 = addr
          · simp [isGet, isPut, isHandOff, ha] at heq hle0
            simp [refStep, isGet, ha]
            omega
          · simp [isGet, isPut, isHandOff, ha] at heq hle0
            simp [refStep, isGet, isPut, ha]
            omega
        | jsonPut a0 =>
          by_cases ha : a0 = addr
          · simp [isGet, isPut, isHandOff, ha] at heq hle0
            simp [refStep, isGet, isPut, ha]
            omega
          · simp [isGet, isPut, isHandOff, ha] at heq hle0
            simp [refStep, isGet, isPut, ha]
            omega
        | post cl cmd obj d =>
          by_cases ha : obj.addr = addr
          · simp [isGet, isPut, isHandOff, ha] at heq hle0
            simp [refStep, isGet, isPut, ha]
            omega
          · simp [isGet, isPut, isHandOff, ha] at heq hle0
            simp [refStep, isGet, isPut, ha]
            omega
        | sendData cl mt fs =>
          simp [isGet, isPut, isHandOff] at heq hle0
          simp [refStep, isGet, isPut]
          omega
        | clientTerminate cl =>
          simp [isGet, isPut, isHandOff] at heq hle0
          simp [refStep, isGet, isPut]
          omega
  | release cl =>
    have hle := balanced_le addr _ hbal
    by_cases hm : cl ∈ held
    · simp only [refStep, hm, if_true]
      refine ⟨hbal, ?_⟩
      have hlen := List.length_erase_of_mem hm
      have hpos : 0 < held.length := List.length_pos_of_mem hm
      simp only [hlen]
      omega
    · simp only [refStep, hm, if_false]
      exact ⟨hbal, heq⟩

theorem refInv_run (addr r : Nat) (hr : 1 ≤ r) : ∀ (acts : List Act) (st : RefState),
    RefInv addr r st → RefInv addr r (refRun addr acts st) := by
  intro acts
  induction acts with
  | nil => intro st h; exact h
  | cons a acts ih =>
    intro st h
    exact ih _ (refInv_step addr r hr a st h)

theorem refRun_append (addr : Nat) (a b : List Act) (st : RefState) :
    refRun addr (a ++ b) st = refRun addr b (refRun addr a st) := by
  simp [refRun, List.foldl_append]

theorem refRun_block (MSG : Nat) (deliver : Nat → Bool) (p : Packet) (c : Client)
    (rest : List Event) (count : Nat) (held : List Nat) :
    refRun p.obj.addr (List.replicate (dispatch MSG deliver p c []).1.length Act.dispatcher)
        { pending := (dispatch MSG deliver p c []).1 ++ rest, count := count, held := held }
      = { pending := rest,
          count := count + ([c].filter (fun c => decide (c.ptr ≠ p.c.ptr))).length,
          held := held ++ ([c].filter (fun c => decide (c.ptr ≠ p.c.ptr))).map Client.ptr }
    := by
  by_cases hc : c.ptr = p.c.ptr
  · simp [dispatch, hc, refRun, refStep, isGet, isPut, List.replicate]
  · simp [dispatch, hc, refRun, refStep, isGet, isPut, List.replicate]

theorem refRun_visit (MSG : Nat) (deliver : Nat → Bool) (p : Packet) :
    ∀ (cs : List Client) (rest : List Event) (count : Nat) (held : List Nat),
      refRun p.obj.addr
          (List.replicate (cs.flatMap (fun c => (dispatch MSG deliver p c []).1)).length
            Act.dispatcher)
          { pending := cs.flatMap (fun c => (dispatch MSG deliver p c []).1) ++ rest,
            count := count, held := held }
        = { pending := rest,
            count := count + (cs.filter (fun c => decide (c.ptr ≠ p.c.ptr))).length,
            held := held ++ (cs.filter (fun c => decide (c.ptr ≠ p.c.ptr))).map Client.ptr }
    := by
  intro cs
  induction cs with
  | nil => intro rest count held; simp [refRun]
  | cons c cs ih =>
    intro rest count held
    rw [List.flatMap_cons, List.length_append, List.replicate_add, refRun_append,
      List.append_assoc, refRun_block, ih]
    by_cases hc : c.ptr = p.c.ptr
    · simp [hc]
    · simp [hc, List.filter_cons, Nat.add_assoc, Nat.add_comm 1]

theorem refRun_releases (addr : Nat) (pend : List Event) :
    ∀ (l : List Nat) (count : Nat),
      refRun addr (l.map Act.release) { pending := pend, count := count, held := l }
        = { pending := pend, count := count - l.length, held := [] } := by
  intro l
  induction l with
  | nil => intro count; simp [refRun]
  | cons x l ih =>
    intro count
    have hstep : refStep addr (Act.release x) { pending := pend, count := count, held := x :: l }
        = { pending := pend, count := count - 1, held := l } := by
      simp [refStep]
    simp only [List.map_cons, refRun, List.foldl_cons, hstep]
    have h := ih (count - 1)
    simp only [refRun] at h
    rw [h]
    simp only [List.length_cons, RefState.mk.injEq, and_true, true_and]
    omega

/-- Claim C10 (reference-count discipline): one pass of the dispatch loop on packet `p`
makes, for every visited member other than the originator, one `json_object_get` on
the payload immediately before the hand-off by `post`, for the originator none, and
only after the whole visit its one `json_object_put`. When the payload enters with
count `r ≥ 1`, then under every interleaving of these calls with the releases of the
recipients the count is at least 1 while a recipient still holds a reference, and once
the pass is over the count is `r - 1` plus the references still held; after the visit
it is `r + k - 1` with the `k` recipients holding, and after their `k` releases it is
exactly `r - 1`. -/
theorem refcount_discipline (MSG_ACK_UPDATEID : Nat) (deliver : Nat → Bool)
    (projects : ProjectMap) (p : Packet) (r : Nat) (acts : List Act) (hr : 1 ≤ r) :
    processPacket MSG_ACK_UPDATEID deliver projects p
      = (projects.members p.c.pid).flatMap
          (fun c =>
            if c.ptr = p.c.ptr then
              [Event.sendData c.ptr MSG_ACK_UPDATEID [("updateid".toList, p.uid)]]
            else
              [Event.jsonGet p.obj.addr, Event.post c.ptr p.cmd p.obj (deliver c.ptr)])
        ++ [Event.jsonPut p.obj.addr]
    ∧ ((refRun p.obj.addr acts
          { pending := processPacket MSG_ACK_UPDATEID deliver projects p,
            count := r, held := [] }).held ≠ [] →
        1 ≤ (refRun p.obj.addr acts
          { pending := processPacket MSG_ACK_UPDATEID deliver projects p,
            count := r, held := [] }).count)
    ∧ ((refRun p.obj.addr acts
          { pending := processPacket MSG_ACK_UPDATEID deliver projects p,
            count := r, held := [] }).pending = [] →
        (refRun p.obj.addr acts
          { pending := processPacket MSG_ACK_UPDATEID deliver projects p,
            count := r, held := [] }).count
          = r - 1 + (refRun p.obj.addr acts
              { pending := processPacket MSG_ACK_UPDATEID deliver projects p,
                count := r, held := [] }).held.length)
    ∧ refRun p.obj.addr
        (List.replicate (processPacket MSG_ACK_UPDATEID deliver projects p).length
          Act.dispatcher)
        { pending := processPacket MSG_ACK_UPDATEID deliver projects p,
          count := r, held := [] }
      = { pending := [], count := r + (recipients projects p).length - 1,
          held := recipients projects p }
    ∧ refRun p.obj.addr
        (List.replicate (processPacket MSG_ACK_UPDATEID deliver projects p).length
            Act.dispatcher
          ++ (recipients projects p).map Act.release)
        { pending := processPacket MSG_ACK_UPDATEID deliver projects p,
          count := r, held := [] }
      = { pending := [], count := r - 1, held := [] } := by
  have hprog : processPacket MSG_ACK_UPDATEID deliver projects p
      = (projects.members p.c.pid).flatMap
          (fun c => (dispatch MSG_ACK_UPDATEID deliver p c []).1)
        ++ [Event.jsonPut p.obj.addr] := by
    unfold processPacket loopProject
    rw [loopList_dispatch, List.nil_append]
  have hinit : RefInv p.obj.addr r
      { pending := processPacket MSG_ACK_UPDATEID deliver projects p,
        count := r, held := [] } := by
    refine ⟨?_, ?_⟩
    · rw [hprog]
      exact balanced_visit MSG_ACK_UPDATEID deliver p _
    · simp only [hprog, List.countP_append, List.length_nil]
      have hput : ∀ cs : List Client,
          (cs.flatMap (fun c => (dispatch MSG_ACK_UPDATEID deliver p c []).1)).countP
            (isPut p.obj.addr) = 0 := by
        intro cs
        induction cs with
        | nil => rfl
        | cons c cs ih =>
          rw [List.flatMap_cons, List.countP_append, ih]
          by_cases hc : c.ptr = p.c.ptr <;> simp [dispatch, hc, isPut]
      have hgh : ∀ cs : List Client,
          (cs.flatMap (fun c => (dispatch MSG_ACK_UPDATEID deliver p c []).1)).countP
            (isGet p.obj.addr)
          = (cs.flatMap (fun c => (dispatch MSG_ACK_UPDATEID deliver p c []).1)).countP
            (isHandOff p.obj.addr) := by
        intro cs
        induction cs with
        | nil => rfl
        | cons c cs ih =>
          rw [List.flatMap_cons, List.countP_append, List.countP_append, ih]
          by_cases hc : c.ptr = p.c.ptr <;> simp [dispatch, hc, isGet, isHandOff]
      rw [hput, hgh]
      simp [isGet, isPut, isHandOff]
  have hinv := refInv_run p.obj.addr r hr acts _ hinit
  have hvisit : refRun p.obj.addr
        (List.replicate (processPacket MSG_ACK_UPDATEID deliver projects p).length
          Act.dispatcher)
        { pending := processPacket MSG_ACK_UPDATEID deliver projects p,
          count := r, held := [] }
      = { pending := [], count := r + (recipients projects p).length - 1,
          held := recipients projects p } := by
    rw [hprog, List.length_append, List.replicate_add, refRun_append, refRun_visit]
    simp [refRun, refStep, isGet, isPut, recipients]
  refine ⟨?_, ?_, ?_, hvisit, ?_⟩
  · rw [hprog]
    congr 1
    apply List.flatMap_congr
    intro c _
    by_cases hc : c.ptr = p.c.ptr
    · simp [dispatch, hc, append_json_uint64_val, json_object_new_object]
    · simp [dispatch, hc]
  · intro hheld
    have hle := balanced_le _ _ hinv.1
    have hpos : 0 < (refRun p.obj.addr acts
          { pending := processPacket MSG_ACK_UPDATEID deliver projects p,
            count := r, held := [] }).held.length := List.length_pos.2 hheld
    have heq := hinv.2
    omega
  · intro hpend
    have heq := hinv.2
    rw [hpend] at heq
    simp at heq
    omega
  · rw [refRun_append, hvisit, refRun_releases]
    simp only [RefState.mk.injEq, and_true, true_and]
    omega

/-- Project {A, B, C}, packet from A, count 1 on entry: B releases its reference while
the visit is still going on, and the count stays positive. -/
theorem refcount_discipline_witness :
    (refRun samplePacket.obj.addr
        [Act.dispatcher, Act.dispatcher, Act.dispatcher, Act.release 2, Act.dispatcher,
          Act.dispatcher]
        { pending := processPacket 20 (fun _ => true) sampleProjects samplePacket,
          count := 1, held := [] }).held = [3]
    ∧ 1 ≤ (refRun samplePacket.obj.addr
        [Act.dispatcher, Act.dispatcher, Act.dispatcher, Act.release 2, Act.dispatcher,
          Act.dispatcher]
        { pending := processPacket 20 (fun _ => true) sampleProjects samplePacket,
          count := 1, held := [] }).count :=
  ⟨by decide,
   (refcount_discipline 20 (fun _ => true) sampleProjects samplePacket 1
      [Act.dispatcher, Act.dispatcher, Act.dispatcher, Act.release 2, Act.dispatcher,
        Act.dispatcher] (by decide)).2.1 (by decide)⟩

end CollabREate
